import Mathlib

/-!
Verification of the omnibust cachebusting engine (omnibust.py) against its
specification.  Python strings are modelled as `List Char`; Python functions
are translated one-to-one into executable Lean definitions.  External
collaborators (the `hashlib` digests wrapped by `digest_data`, and the
filesystem accessed by `os.path.getmtime` / `open`) are modelled as explicit
function parameters (`dd`, `FileSys`), since their code is not part of the
repository; everything else follows the source line by line.
-/

set_option maxRecDepth 8000
set_option maxHeartbeats 2000000

abbrev Str := List Char

/-- The single-quote character, written via its code point. -/
def sqChar : Char := Char.ofNat 39

/-- Python `str.replace(pat, rep)`: replace every non-overlapping occurrence
of `pat`, scanning left to right.  (For an empty `pat` CPython interleaves
`rep` between characters; no call site in omnibust.py uses an empty pattern,
and this model leaves the string unchanged in that case.) -/
def replaceAllGo (pat rep : Str) : Nat → Str → Str
  | _, [] => []
  | 0, l => l
  | fuel + 1, c :: cs =>
    if pat ≠ [] ∧ pat.isPrefixOf (c :: cs) then
      rep ++ replaceAllGo pat rep fuel ((c :: cs).drop pat.length)
    else
      c :: replaceAllGo pat rep fuel cs

/-- Python `str.replace(pat, rep)`: replace every non-overlapping occurrence
of `pat`, scanning left to right.  The `Nat` fuel of `replaceAllGo` only
bounds the recursion; one unit per consumed character always suffices. -/
def replaceAll (pat rep l : Str) : Str :=
  replaceAllGo pat rep l.length l

/-- Python `pat in s` (substring containment). -/
def containsSub (pat : Str) : Str → Bool
  | [] => pat.isEmpty
  | c :: cs => pat.isPrefixOf (c :: cs) || containsSub pat cs

/-- Python `s.endswith(suf)`. -/
def endswith (suf s : Str) : Bool :=
  if s.drop (s.length - suf.length) = suf then true else false

/-- Python slice `s[:n]` for an `int` bound `n` (negative bounds count from
the end, clamped at zero). -/
def pyTake (n : Int) (l : List Char) : List Char :=
  if 0 ≤ n then l.take n.toNat else l.take (l.length - n.natAbs)

/-- Python `s.split(sep)` for a one-character separator (`os.sep` is `"/"` on
the platforms the tool targets). -/
def splitOnChar (sep : Char) : Str → List Str
  | [] => [[]]
  | c :: cs =>
    if c = sep then
      [] :: splitOnChar sep cs
    else
      match splitOnChar sep cs with
      | [] => [[c]]
      | h :: t => (c :: h) :: t

/-- `os.path.split`: split off the final path component (posixpath). -/
def ospathSplit (p : Str) : Str × Str :=
  let tail := (p.reverse.takeWhile (fun c => c ≠ '/')).reverse
  let head := p.take (p.length - tail.length)
  let head' :=
    if head ≠ [] ∧ head.any (fun c => c ≠ '/') then
      (head.reverse.dropWhile (fun c => c = '/')).reverse
    else head
  (head', tail)

/-- Index of the last occurrence of `c` in `p`, as in CPython `str.rfind`
(`-1` when absent). -/
def rfindChar (c : Char) (p : Str) : Int :=
  match p.reverse.findIdx? (fun x => x = c) with
  | none => -1
  | some i => Int.ofNat (p.length - 1 - i)

/-- `os.path.splitext` (posixpath/genericpath `_splitext` with `sep='/'`,
`extsep='.'`): split off the extension unless the final component's name is
made only of leading dots. -/
def ospathSplitext (p : Str) : Str × Str :=
  let si := rfindChar '/' p
  let di := rfindChar '.' p
  if si < di then
    let nameStart := (si + 1).toNat
    let seg := (p.take di.toNat).drop nameStart
    if seg.any (fun c => c ≠ '.') then (p.take di.toNat, p.drop di.toNat)
    else (p, [])
  else (p, [])

/-- `os.path.join` for two components (posixpath). -/
def ospathJoin (a b : Str) : Str :=
  if b.head? = some '/' then b
  else if a = [] ∨ a.getLast? = some '/' then a ++ b
  else a ++ ['/'] ++ b

/-- The `Ref` namedtuple of omnibust.py.  `bustcode` is an `Option` because
the query-string regex can leave its `bust` group unmatched, in which case
Python stores `None` (distinct from the empty string). -/
structure Ref where
  code_dir : Str
  code_fn : Str
  lineno : Nat
  full_ref : Str
  path : Str
  bustcode : Option Str
  type : Nat
deriving DecidableEq, Repr

/-- `PLAIN_REF` (= 1) in omnibust.py. -/
def PLAIN_REF : Nat := 1

/-- `FN_REF` (= 2) in omnibust.py. -/
def FN_REF : Nat := 2

/-- `QS_REF` (= 3) in omnibust.py. -/
def QS_REF : Nat := 3

/-- Exceptions that the modelled rewriter code can raise at runtime. -/
inductive PyErr where
  | typeError
  | nameError
  | attributeError
  | assertionError
deriving DecidableEq, Repr

instance exceptDecEq {ε α : Type} [DecidableEq ε] [DecidableEq α] :
    DecidableEq (Except ε α) := fun a b =>
  match a, b with
  | .ok x, .ok y =>
      if h : x = y then .isTrue (by rw [h]) else .isFalse (by simp [h])
  | .error x, .error y =>
      if h : x = y then .isTrue (by rw [h]) else .isFalse (by simp [h])
  | .ok _, .error _ => .isFalse (by simp)
  | .error _, .ok _ => .isFalse (by simp)

/-- `mk_plainref` (omnibust.py:323).  Concatenating `"_cb_"` with a `None`
bustcode raises `TypeError` in Python, hence the `Except`. -/
def mk_plainref (ref : Ref) : Except PyErr Str :=
  if ref.type = PLAIN_REF then
    .ok ref.full_ref
  else if ref.type = FN_REF then
    match ref.bustcode with
    | none => .error .typeError
    | some b => .ok (replaceAll ("_cb_".data ++ b) [] ref.full_ref)
  else if ref.type = QS_REF then
    match ref.bustcode with
    | none => .error .typeError
    | some b =>
        .ok (replaceAll "?&".data "?".data
              (replaceAll ("&_cb_=".data ++ b) []
                (replaceAll ("?_cb_=".data ++ b) "?".data ref.full_ref)))
  else .error .assertionError

/-- `set_fn_bustcode` (omnibust.py:337). -/
def set_fn_bustcode (ref : Ref) (new_bustcode : Str) : Except PyErr Str :=
  let rd := ospathSplit ref.path
  let be := ospathSplitext rd.2
  let fnref := rd.1 ++ "/".data ++ be.1 ++ "_cb_".data ++ new_bustcode ++ be.2
  (mk_plainref ref).map (fun plain => replaceAll ref.path fnref plain)

/-- `set_qs_bustcode` (omnibust.py:344). -/
def set_qs_bustcode (ref : Ref) (new_bustcode : Str) : Except PyErr Str :=
  let new_refpath := ref.path ++ "?_cb_=".data ++ new_bustcode
  (mk_plainref ref).map (fun plain =>
    let new_ref := replaceAll ref.path new_refpath plain
    if containsSub (new_refpath ++ "?".data) new_ref then
      replaceAll (new_refpath ++ "?".data) (new_refpath ++ "&".data) new_ref
    else new_ref)

/-- `replace_bustcode` (omnibust.py:352).  For a `PLAIN_REF` the local
`prefix` variable is never assigned (`NameError`); concatenating with a
`None` bustcode raises `TypeError`. -/
def replace_bustcode (ref : Ref) (new_bustcode : Str) : Except PyErr Str :=
  if ref.type = FN_REF ∨ ref.type = QS_REF then
    let pre := if ref.type = QS_REF then "_cb_=".data else "_cb_".data
    match ref.bustcode with
    | none => .error .typeError
    | some b => .ok (replaceAll (pre ++ b) (pre ++ new_bustcode) ref.full_ref)
  else .error .nameError

/-- `updated_fullref` (omnibust.py:360).  `.ok none` is Python's implicit
`None` return for "no change".  The `target_reftype == PLAIN_REF` branch
reads the nonexistent attribute `ref.fullref`, an `AttributeError`. -/
def updated_fullref (ref : Ref) (new_bustcode : Str) (target? : Option Nat) :
    Except PyErr (Option Str) :=
  let target := target?.getD ref.type
  if ¬(target = PLAIN_REF ∨ target = FN_REF ∨ target = QS_REF) then
    .error .assertionError
  else if ref.bustcode = some new_bustcode ∧ ref.type = target then
    .ok none
  else if ref.type = target then
    (replace_bustcode ref new_bustcode).map some
  else if target = PLAIN_REF then
    .error .attributeError
  else if target = FN_REF then
    (set_fn_bustcode ref new_bustcode).map some
  else
    (set_qs_bustcode ref new_bustcode).map some

/-- The query-param reference of claim C3:
`url('/static/app.js?_cb_=123456&a=b')`. -/
def c3ref : Ref :=
  { code_dir := []
    code_fn := []
    lineno := 1
    full_ref := "url(".data ++ [sqChar] ++ "/static/app.js?_cb_=123456&a=b".data ++ [sqChar] ++ ")".data
    path := "/static/app.js".data
    bustcode := some "123456".data
    type := QS_REF }

/-- Claim C3: rewriting the query-param reference
`url('/static/app.js?_cb_=123456&a=b')` (path `/static/app.js`, token
`123456`) to the filename-embedded kind with new token `abcdef` yields
exactly `url('/static/app_cb_abcdef.js?a=b')`: the unrelated parameter
`a=b` survives verbatim and neither `123456` nor the `_cb_=` parameter
remains. -/
theorem c3_qs_to_fn_rewrite :
    updated_fullref c3ref "abcdef".data (some FN_REF) =
      .ok (some ("url(".data ++ [sqChar] ++ "/static/app_cb_abcdef.js?a=b".data ++ [sqChar] ++ ")".data)) ∧
    containsSub "123456".data
        ("url(".data ++ [sqChar] ++ "/static/app_cb_abcdef.js?a=b".data ++ [sqChar] ++ ")".data) = false ∧
    containsSub "_cb_=".data
        ("url(".data ++ [sqChar] ++ "/static/app_cb_abcdef.js?a=b".data ++ [sqChar] ++ ")".data) = false := by
  decide

/-- The plain reference `url(/s/a.js?x=1)` (existing query section) used by
claim C7. -/
def c7refQuery : Ref :=
  { code_dir := []
    code_fn := []
    lineno := 1
    full_ref := "url(/s/a.js?x=1)".data
    path := "/s/a.js".data
    bustcode := some []
    type := PLAIN_REF }

/-- The plain reference `url(/s/a.js)` (no query section) used by claim C7. -/
def c7refNoQuery : Ref :=
  { code_dir := []
    code_fn := []
    lineno := 1
    full_ref := "url(/s/a.js)".data
    path := "/s/a.js".data
    bustcode := some []
    type := PLAIN_REF }

/-- Claim C7, counterexample: converting the plain reference
`url(/s/a.js?x=1)` to the query-param kind with token `abc` does NOT append
`&_cb_=abc` after the pre-existing parameter `x=1` (which would give
`url(/s/a.js?x=1&_cb_=abc)`); the code instead produces
`url(/s/a.js?_cb_=abc&x=1)`. -/
theorem c7_qs_append_position_counterexample :
    updated_fullref c7refQuery "abc".data (some QS_REF) ≠
      .ok (some "url(/s/a.js?x=1&_cb_=abc)".data) := by
  decide

theorem replaceAllGo_fuel (pat rep : Str) :
    ∀ (f1 f2 : Nat) (l : Str), l.length ≤ f1 → l.length ≤ f2 →
      replaceAllGo pat rep f1 l = replaceAllGo pat rep f2 l := by
  intro f1
  induction f1 with
  | zero =>
      intro f2 l h1 _
      have hl : l = [] := List.length_eq_zero.mp (Nat.le_zero.mp h1)
      subst hl
      cases f2 <;> rfl
  | succ f1 ih =>
      intro f2 l h1 h2
      cases l with
      | nil => cases f2 <;> rfl
      | cons c cs =>
          cases f2 with
          | zero => simp at h2
          | succ f2 =>
              simp only [replaceAllGo]
              by_cases hb : pat ≠ [] ∧ pat.isPrefixOf (c :: cs)
              · rw [if_pos hb, if_pos hb]
                congr 1
                have hp : 1 ≤ pat.length := by
                  cases hpat : pat with
                  | nil => exact absurd hpat hb.1
                  | cons a as => simp
                apply ih
                · simp only [List.length_drop, List.length_cons]
                  simp only [List.length_cons] at h1
                  omega
                · simp only [List.length_drop, List.length_cons]
                  simp only [List.length_cons] at h2
                  omega
              · rw [if_neg hb, if_neg hb]
                congr 1
                apply ih
                · simp only [List.length_cons] at h1; omega
                · simp only [List.length_cons] at h2; omega

theorem replaceAllGo_eq (pat rep : Str) (fuel : Nat) (l : Str)
    (h : l.length ≤ fuel) : replaceAllGo pat rep fuel l = replaceAll pat rep l :=
  replaceAllGo_fuel pat rep fuel l.length l h (Nat.le_refl _)

theorem replaceAll_of_not_contains {pat rep : Str} :
    ∀ {s : Str}, containsSub pat s = false → replaceAll pat rep s = s
  | [], _ => rfl
  | c :: cs, h => by
      simp only [containsSub, Bool.or_eq_false_iff] at h
      show replaceAllGo pat rep (c :: cs).length (c :: cs) = c :: cs
      simp only [List.length_cons, replaceAllGo]
      rw [if_neg]
      · exact congrArg (c :: ·) (replaceAll_of_not_contains h.2)
      · rintro ⟨_, hpre⟩
        rw [h.1] at hpre
        exact Bool.false_ne_true hpre

theorem containsSub_of_isPrefixOf {pat s : Str} (h : pat.isPrefixOf s = true) :
    containsSub pat s = true := by
  cases s with
  | nil =>
      cases pat with
      | nil => rfl
      | cons a as => simp [List.isPrefixOf] at h
  | cons c cs => simp only [containsSub, h, Bool.true_or]

theorem containsSub_append_self (pat : Str) :
    ∀ (pre tail : Str), containsSub pat (pre ++ pat ++ tail) = true
  | [], tail => by
      simp only [List.nil_append]
      exact containsSub_of_isPrefixOf
        (List.isPrefixOf_iff_prefix.mpr (List.prefix_append pat tail))
  | c :: pre', tail => by
      show containsSub pat (c :: (pre' ++ pat ++ tail)) = true
      simp only [containsSub, containsSub_append_self pat pre' tail, Bool.or_true]

theorem replaceAll_cons_of_neg {pat rep : Str} {c : Char} {cs : Str}
    (h : ¬(pat ≠ [] ∧ pat.isPrefixOf (c :: cs))) :
    replaceAll pat rep (c :: cs) = c :: replaceAll pat rep cs := by
  show replaceAllGo pat rep (c :: cs).length (c :: cs) = c :: replaceAll pat rep cs
  simp only [List.length_cons, replaceAllGo]
  rw [if_neg h]
  rfl

theorem replaceAll_head_match {pat : Str} (rep rest : Str) (hpat : pat ≠ []) :
    replaceAll pat rep (pat ++ rest) = rep ++ replaceAll pat rep rest := by
  cases hp : pat with
  | nil => exact absurd hp hpat
  | cons p0 ptl =>
      rw [List.cons_append]
      show replaceAllGo (p0 :: ptl) rep (p0 :: (ptl ++ rest)).length
          (p0 :: (ptl ++ rest)) = rep ++ replaceAll (p0 :: ptl) rep rest
      simp only [List.length_cons, replaceAllGo]
      rw [if_pos]
      · congr 1
        have hdrop : (p0 :: (ptl ++ rest)).drop (p0 :: ptl).length = rest := by
          rw [← List.cons_append]
          exact List.drop_left (p0 :: ptl) rest
        simp only [List.length_cons] at hdrop
        rw [hdrop]
        exact replaceAllGo_eq _ _ _ _ (by simp)
      · refine ⟨by simp, List.isPrefixOf_iff_prefix.mpr ?_⟩
        rw [← List.cons_append]
        exact List.prefix_append (p0 :: ptl) rest

/-- `str.replace` at a designated boundary: when `pat` occurs nowhere
strictly before the seam between `pre` and `pat` (no occurrence fits inside
`pre ++ pat.dropLast`), the scan copies `pre`, replaces the occurrence at
the seam, and continues on `rest`. -/
theorem replaceAll_boundary (pat rep : Str) (hpat : pat ≠ []) :
    ∀ (pre rest : Str), containsSub pat (pre ++ pat.dropLast) = false →
      replaceAll pat rep (pre ++ (pat ++ rest)) = pre ++ (rep ++ replaceAll pat rep rest)
  | [], rest, _ => by
      simp only [List.nil_append]
      exact replaceAll_head_match rep rest hpat
  | c :: pre', rest, hpre => by
      have hpre' : containsSub pat (pre' ++ pat.dropLast) = false := by
        have h0 : containsSub pat (c :: (pre' ++ pat.dropLast)) = false := hpre
        simp only [containsSub, Bool.or_eq_false_iff] at h0
        exact h0.2
      have hnp : ¬(pat ≠ [] ∧ pat.isPrefixOf (c :: (pre' ++ (pat ++ rest)))) := by
        rintro ⟨_, hp⟩
        rw [List.isPrefixOf_iff_prefix] at hp
        have hXfull : (c :: pre') ++ pat.dropLast <+: (c :: pre') ++ (pat ++ rest) := by
          rw [List.prefix_append_right_inj]
          exact (List.dropLast_prefix pat).trans (List.prefix_append pat rest)
        have hlen : pat.length ≤ ((c :: pre') ++ pat.dropLast).length := by
          have hp1 : 1 ≤ pat.length := List.length_pos.mpr hpat
          simp only [List.length_append, List.length_cons, List.length_dropLast]
          omega
        have hpX : pat <+: (c :: pre') ++ pat.dropLast :=
          List.prefix_of_prefix_length_le hp hXfull hlen
        have hcs : containsSub pat ((c :: pre') ++ pat.dropLast) = true :=
          containsSub_of_isPrefixOf (List.isPrefixOf_iff_prefix.mpr hpX)
        rw [hpre] at hcs
        exact Bool.false_ne_true hcs
      simp only [List.cons_append]
      rw [replaceAll_cons_of_neg hnp]
      exact congrArg (c :: ·) (replaceAll_boundary pat rep hpat pre' rest hpre')

/-- `set_qs_bustcode` on a plain reference with no query section: `?_cb_=t`
is inserted directly after the path and the rest of the reference text is
untouched. -/
theorem set_qs_noquery (ref : Ref) (pre path t post : Str)
    (ht : ref.type = PLAIN_REF) (hp : ref.path = path) (hpne : path ≠ [])
    (hf : ref.full_ref = pre ++ (path ++ post))
    (hOcc : containsSub path (pre ++ path.dropLast) = false)
    (hPost : containsSub path post = false)
    (hN2 : containsSub (path ++ "?_cb_=".data ++ t ++ "?".data)
        (pre ++ path ++ "?_cb_=".data ++ t ++ post) = false) :
    set_qs_bustcode ref t = .ok (pre ++ path ++ "?_cb_=".data ++ t ++ post) := by
  have hmk : mk_plainref ref = .ok (pre ++ (path ++ post)) := by
    rw [← hf]
    simp [mk_plainref, ht]
  simp only [set_qs_bustcode]
  rw [hmk, hp]
  simp only [Except.map]
  have e1 := replaceAll_boundary path (path ++ "?_cb_=".data ++ t) hpne pre post hOcc
  rw [replaceAll_of_not_contains hPost] at e1
  rw [e1]
  have hcond : containsSub ((path ++ "?_cb_=".data ++ t) ++ "?".data)
      (pre ++ ((path ++ "?_cb_=".data ++ t) ++ post)) = false := by
    simpa [List.append_assoc] using hN2
  rw [if_neg (by intro hx; rw [hcond] at hx; exact Bool.false_ne_true hx)]
  simp [List.append_assoc]

/-- `set_qs_bustcode` on a plain reference with an existing query section:
`?_cb_=t` is inserted directly after the path, the old `?` becomes `&`, and
the pre-existing query text `rest` survives verbatim and in order. -/
theorem set_qs_withquery (ref : Ref) (pre path t rest : Str)
    (ht : ref.type = PLAIN_REF) (hp : ref.path = path) (hpne : path ≠ [])
    (hf : ref.full_ref = pre ++ (path ++ ("?".data ++ rest)))
    (hOcc : containsSub path (pre ++ path.dropLast) = false)
    (hRest : containsSub path ("?".data ++ rest) = false)
    (hQ2a : containsSub (path ++ "?_cb_=".data ++ t ++ "?".data)
        (pre ++ path ++ "?_cb_=".data ++ t) = false)
    (hQ2b : containsSub (path ++ "?_cb_=".data ++ t ++ "?".data) rest = false) :
    set_qs_bustcode ref t =
      .ok (pre ++ path ++ "?_cb_=".data ++ t ++ "&".data ++ rest) := by
  have hmk : mk_plainref ref = .ok (pre ++ (path ++ ("?".data ++ rest))) := by
    rw [← hf]
    simp [mk_plainref, ht]
  simp only [set_qs_bustcode]
  rw [hmk, hp]
  simp only [Except.map]
  have e1 := replaceAll_boundary path (path ++ "?_cb_=".data ++ t) hpne pre
    ("?".data ++ rest) hOcc
  rw [replaceAll_of_not_contains hRest] at e1
  rw [e1]
  have hcond : containsSub ((path ++ "?_cb_=".data ++ t) ++ "?".data)
      (pre ++ ((path ++ "?_cb_=".data ++ t) ++ ("?".data ++ rest))) = true := by
    simpa [List.append_assoc] using
      containsSub_append_self ((path ++ "?_cb_=".data ++ t) ++ "?".data) pre rest
  rw [if_pos hcond]
  have harg : pre ++ ((path ++ "?_cb_=".data ++ t) ++ ("?".data ++ rest)) =
      pre ++ (((path ++ "?_cb_=".data ++ t) ++ "?".data) ++ rest) := by
    simp [List.append_assoc]
  rw [harg]
  have hpat2 : (path ++ "?_cb_=".data ++ t) ++ "?".data ≠ [] := by simp
  have hpre2 : containsSub ((path ++ "?_cb_=".data ++ t) ++ "?".data)
      (pre ++ ((path ++ "?_cb_=".data ++ t) ++ "?".data).dropLast) = false := by
    have hdl : ((path ++ "?_cb_=".data ++ t) ++ "?".data).dropLast =
        path ++ "?_cb_=".data ++ t := by
      show ((path ++ "?_cb_=".data ++ t) ++ ['?']).dropLast = path ++ "?_cb_=".data ++ t
      exact List.dropLast_concat
    rw [hdl]
    simpa [List.append_assoc] using hQ2a
  have e2 := replaceAll_boundary ((path ++ "?_cb_=".data ++ t) ++ "?".data)
    ((path ++ "?_cb_=".data ++ t) ++ "&".data) hpat2 pre rest hpre2
  rw [replaceAll_of_not_contains hQ2b] at e2
  rw [e2]
  simp [List.append_assoc]

/-- Claim C7 (amended): converting ANY plain reference to the query-param
kind with ANY token `t` appends `?_cb_=t` directly after the path when the
reference has no query section; when a query section is already present,
`_cb_` becomes the FIRST parameter and the old `?` introducing the
pre-existing parameters is rewritten to `&`, the parameter text `rest`
surviving verbatim and in order.  The `containsSub` hypotheses pin the
designated occurrences: the path (and later the rewritten `path?_cb_=t`
segment followed by `?`) occurs only at its seam, which holds for every
reference the parser emits. -/
theorem c7_plain_to_qs_insertion (refN refQ : Ref) (pre path t rest post : Str)
    (hpne : path ≠ [])
    (hNt : refN.type = PLAIN_REF) (hNp : refN.path = path)
    (hNf : refN.full_ref = pre ++ (path ++ post))
    (hQt : refQ.type = PLAIN_REF) (hQp : refQ.path = path)
    (hQf : refQ.full_ref = pre ++ (path ++ ("?".data ++ rest)))
    (hOcc : containsSub path (pre ++ path.dropLast) = false)
    (hPost : containsSub path post = false)
    (hRest : containsSub path ("?".data ++ rest) = false)
    (hN2 : containsSub (path ++ "?_cb_=".data ++ t ++ "?".data)
        (pre ++ path ++ "?_cb_=".data ++ t ++ post) = false)
    (hQ2a : containsSub (path ++ "?_cb_=".data ++ t ++ "?".data)
        (pre ++ path ++ "?_cb_=".data ++ t) = false)
    (hQ2b : containsSub (path ++ "?_cb_=".data ++ t ++ "?".data) rest = false) :
    updated_fullref refN t (some QS_REF) =
      .ok (some (pre ++ path ++ "?_cb_=".data ++ t ++ post)) ∧
    updated_fullref refQ t (some QS_REF) =
      .ok (some (pre ++ path ++ "?_cb_=".data ++ t ++ "&".data ++ rest)) := by
  have hN := set_qs_noquery refN pre path t post hNt hNp hpne hNf hOcc hPost hN2
  have hQ := set_qs_withquery refQ pre path t rest hQt hQp hpne hQf hOcc hRest hQ2a hQ2b
  constructor
  · simp [updated_fullref, hNt, PLAIN_REF, QS_REF, FN_REF, hN, Except.map]
  · simp [updated_fullref, hQt, PLAIN_REF, QS_REF, FN_REF, hQ, Except.map]

/-- A plain reference `url(/s/a.js?x=1&y=2)` carrying two pre-existing
query parameters, used to instantiate `c7_plain_to_qs_insertion`. -/
def c7refQuery2 : Ref :=
  { code_dir := []
    code_fn := []
    lineno := 1
    full_ref := "url(/s/a.js?x=1&y=2)".data
    path := "/s/a.js".data
    bustcode := some []
    type := PLAIN_REF }

/-- Witness for `c7_plain_to_qs_insertion` at `pre = "url("`,
`path = "/s/a.js"`, `t = "abc"`, `rest = "x=1&y=2)"` (two pre-existing
parameters plus the closing paren) and `post = ")"`: the no-query reference
becomes `url(/s/a.js?_cb_=abc)` and the two-parameter reference becomes
`url(/s/a.js?_cb_=abc&x=1&y=2)`, with `x=1&y=2)` surviving verbatim. -/
theorem c7_plain_to_qs_insertion_witness :
    ("/s/a.js".data ≠ ([] : Str)) ∧
    c7refNoQuery.type = PLAIN_REF ∧
    c7refNoQuery.path = "/s/a.js".data ∧
    c7refNoQuery.full_ref = "url(".data ++ ("/s/a.js".data ++ ")".data) ∧
    c7refQuery2.type = PLAIN_REF ∧
    c7refQuery2.path = "/s/a.js".data ∧
    c7refQuery2.full_ref =
      "url(".data ++ ("/s/a.js".data ++ ("?".data ++ "x=1&y=2)".data)) ∧
    containsSub "/s/a.js".data ("url(".data ++ "/s/a.js".data.dropLast) = false ∧
    containsSub "/s/a.js".data ")".data = false ∧
    containsSub "/s/a.js".data ("?".data ++ "x=1&y=2)".data) = false ∧
    containsSub ("/s/a.js".data ++ "?_cb_=".data ++ "abc".data ++ "?".data)
      ("url(".data ++ "/s/a.js".data ++ "?_cb_=".data ++ "abc".data ++ ")".data) = false ∧
    containsSub ("/s/a.js".data ++ "?_cb_=".data ++ "abc".data ++ "?".data)
      ("url(".data ++ "/s/a.js".data ++ "?_cb_=".data ++ "abc".data) = false ∧
    containsSub ("/s/a.js".data ++ "?_cb_=".data ++ "abc".data ++ "?".data)
      "x=1&y=2)".data = false ∧
    updated_fullref c7refNoQuery "abc".data (some QS_REF) =
      .ok (some ("url(".data ++ "/s/a.js".data ++ "?_cb_=".data ++ "abc".data ++ ")".data)) ∧
    updated_fullref c7refQuery2 "abc".data (some QS_REF) =
      .ok (some ("url(".data ++ "/s/a.js".data ++ "?_cb_=".data ++ "abc".data ++
        "&".data ++ "x=1&y=2)".data)) :=
  ⟨by decide, by decide, by decide, by decide, by decide, by decide, by decide,
    by decide, by decide, by decide, by decide, by decide, by decide,
    (c7_plain_to_qs_insertion c7refNoQuery c7refQuery2 "url(".data "/s/a.js".data
      "abc".data "x=1&y=2)".data ")".data (by decide) (by decide) (by decide)
      (by decide) (by decide) (by decide) (by decide) (by decide) (by decide)
      (by decide) (by decide) (by decide) (by decide)).1,
    (c7_plain_to_qs_insertion c7refNoQuery c7refQuery2 "url(".data "/s/a.js".data
      "abc".data "x=1&y=2)".data ")".data (by decide) (by decide) (by decide)
      (by decide) (by decide) (by decide) (by decide) (by decide) (by decide)
      (by decide) (by decide) (by decide) (by decide)).2⟩

/-- The initial run of indices `0, 1, ...` of `elem` on which `f` holds;
this is the `i + 1` value that CPython's loop in `filter_longest`
(omnibust.py:200) computes via `i -= 1; break`. -/
def initPassCount (f : Nat → List Str → Bool) (elem : List Str) : Nat :=
  (List.range elem.length).takeWhile (fun i => f i elem) |>.length

/-- `filter_longest` (omnibust.py:200): keep the element with the longest
initial run of indices passing `f`, ties going to the earliest element.
(CPython leaks the loop variable `i` across iterations; for an empty `elem`
the stale `i + 1` can never exceed the accumulated `length`, and every call
site passes results of `str.split`, which are never empty lists, so the
pass-count formulation is extensionally equal on all reachable inputs.) -/
def filter_longest (f : Nat → List Str → Bool) (l : List (List Str)) :
    Nat × List Str :=
  l.foldl
    (fun acc elem =>
      let k := initPassCount f elem
      if acc.1 < k then (k, elem) else acc)
    (0, [])

/-- Python `l[-n:]` for `n ≥ 1` (the only way `closest_matching_path` slices:
the `length = 0` case is routed through the empty-suffix branch instead). -/
def takeRight (n : Nat) (l : List Str) : List Str :=
  l.drop (l.length - n)

/-- Membership test used to model Python's `elem[-1-i]` / list indexing. -/
def negIdx (l : List Str) (i : Nat) : Str :=
  l.getD (l.length - 1 - i) []

/-- `closest_matching_path` (omnibust.py:224): pick the candidate static
directory for a reference, suffix components against the reference's own
directory first, then prefix components against the referencing file's
directory.  `dirpaths` is a Python `set`; it is modelled as the list of its
iteration order (claims are proved for every order where it matters). -/
def closest_matching_path (code_dirpath refdir : Str) (dirpaths : List Str) :
    Str :=
  if dirpaths.length = 1 then dirpaths.headD [] else
  let refdir' := if endswith "/".data refdir then refdir.dropLast else refdir
  let refparts := (splitOnChar '/' refdir').filter (fun s => s ≠ [])
  let codeparts := splitOnChar '/' code_dirpath
  let split_dirpaths := dirpaths.map (splitOnChar '/')
  let suffix_matcher := fun (i : Nat) (elem : List Str) =>
    decide (i < refparts.length) && decide (negIdx refparts i = negIdx elem i)
  let prefix_matcher := fun (i : Nat) (elem : List Str) =>
    decide (i < codeparts.length) && decide (codeparts.getD i [] = elem.getD i [])
  let fl := filter_longest suffix_matcher split_dirpaths
  let suffix := takeRight fl.1 fl.2
  let suffix_paths :=
    if suffix.length = 0 then split_dirpaths
    else split_dirpaths.filter (fun p => takeRight suffix.length p = suffix)
  let longest :=
    if suffix_paths.length > 1 then (filter_longest prefix_matcher suffix_paths).2
    else suffix_paths.headD []
  match longest with
  | [] => []
  | h :: t => t.foldl (fun acc s => acc ++ ['/'] ++ s) h

/-- `find_static_filepath` (omnibust.py:257).  The static index
`static_fn_dirs` (a Python dict from filename to a set of directories) is
modelled as an association list whose value is the set's iteration order. -/
def find_static_filepath (base_dir ref_path : Str)
    (static_fn_dirs : List (Str × List Str)) : Option Str :=
  let df := ospathSplit ref_path
  match static_fn_dirs.find? (fun e => decide (e.1 = df.2)) with
  | none => none
  | some e => some (ospathJoin (closest_matching_path base_dir df.1 e.2) df.2)

/-- Claim C4: with the index mapping `app.js` to `foo/static/js` and
`foo/static/lib`, the reference `/lib/app.js` written in a file under
`foo/pages` resolves to `foo/static/lib/app.js` — the suffix match on the
component `lib` decides resolution (proved for both iteration orders of the
candidate-directory set, so no tie-break or prefix comparison is involved). -/
theorem c4_suffix_resolution :
    find_static_filepath "foo/pages".data "/lib/app.js".data
        [("app.js".data, ["foo/static/js".data, "foo/static/lib".data])] =
      some "foo/static/lib/app.js".data ∧
    find_static_filepath "foo/pages".data "/lib/app.js".data
        [("app.js".data, ["foo/static/lib".data, "foo/static/js".data])] =
      some "foo/static/lib/app.js".data := by
  decide

/-- The slice of the configuration a user file can set that is relevant to
token lengths (`read_cfg` merges the parsed `.omnibust` JSON over the
defaults; unrelated keys are omitted from the model). -/
structure UserCfg where
  bust_length : Option Int
  stat_length : Option Int
  digest_length : Option Int
deriving DecidableEq, Repr

/-- The token-length slice of the merged configuration `read_cfg` returns. -/
structure FinalCfg where
  bust_length : Int
  stat_length : Int
  digest_length : Int
deriving DecidableEq, Repr

/-- Errors `read_cfg` can raise: `PathError` when `.omnibust` is missing and
`--no-init` is not given, `BaseError` when the file fails to parse. -/
inductive CfgErr where
  | pathError
  | parseError
deriving DecidableEq, Repr

/-- `read_cfg` (omnibust.py:716), modelled on the token-length slice.
`omnibustExists` stands for `os.path.exists(".omnibust")`, `noInit` for the
`--no-init` flag, and `user` for the result of parsing the `.omnibust` file
(`.error` = `ValueError`/`IOError` during reading).  `DEFAULT_CFG` carries
`bust_length = 6` and no `stat_length`/`digest_length` keys; the missing
keys are then derived with Python floor division. -/
def read_cfg (omnibustExists noInit : Bool) (user : Except Unit UserCfg) :
    Except CfgErr FinalCfg :=
  if ¬noInit ∧ ¬omnibustExists then .error .pathError
  else
    let parsed : Except CfgErr UserCfg :=
      if noInit then .ok ⟨none, none, none⟩
      else match user with
        | .error _ => .error .parseError
        | .ok u => .ok u
    match parsed with
    | .error e => .error e
    | .ok u =>
        let bl := u.bust_length.getD 6
        let st := u.stat_length.getD (Int.fdiv bl 2)
        let dg := u.digest_length.getD (bl - st)
        .ok ⟨bl, st, dg⟩

/-- Claim C8, counterexample: a configuration with `bust_length = 0` is NOT
rejected — `read_cfg` returns it successfully (deriving `stat_length = 0`
and `digest_length = 0`), so no fatal configuration error occurs and the
scan proceeds with a degenerate token length. -/
theorem c8_no_abort_on_zero_length :
    read_cfg true false (.ok ⟨some 0, none, none⟩) = .ok ⟨0, 0, 0⟩ := by
  decide

/-- Claim C8 (amended): `read_cfg` performs no validation of the configured
total token length.  For every `bust_length ≤ 0` it returns the merged
configuration successfully, deriving `stat_length = bust_length // 2`
(Python floor division) and `digest_length = bust_length - stat_length`,
and the run proceeds with the degenerate lengths. -/
theorem c8_cfg_derivation_no_validation (bl : Int) (hbl : bl ≤ 0) :
    read_cfg true false (.ok ⟨some bl, none, none⟩) =
      .ok ⟨bl, Int.fdiv bl 2, bl - Int.fdiv bl 2⟩ := by
  simp [read_cfg]

/-- Witness for `c8_cfg_derivation_no_validation` at `bust_length = -1`
(where `stat_length = -1` and `digest_length = 0`). -/
theorem c8_cfg_derivation_no_validation_witness :
    (-1 : Int) ≤ 0 ∧
    read_cfg true false (.ok ⟨some (-1), none, none⟩) =
      .ok ⟨-1, Int.fdiv (-1) 2, -1 - Int.fdiv (-1) 2⟩ :=
  ⟨by decide, c8_cfg_derivation_no_validation (-1) (by decide)⟩

/-- The filesystem as seen by the buster: file bytes (for `open(...).read()`)
and the string form of the modification time (`unicode(os.path.getmtime(p))`,
omnibust.py:127). -/
structure FileSys where
  content : Str → Str
  mtimeRepr : Str → Str

/-- The digest oracle standing for `digest_data` (omnibust.py:113): given a
digester name and data, it returns the base32-encoded digest.  `hashlib` and
`zlib` are external libraries, so the oracle is a parameter of the model. -/
abbrev DigestFn := Str → Str → Str

/-- `filestat` (omnibust.py:124): digest of the modification-time string
using the default digester name `sha1`. -/
def filestat (dd : DigestFn) (fs : FileSys) (filepath : Str) : Str :=
  dd "sha1".data (fs.mtimeRepr filepath)

/-- Python dict assignment `_cache[filepath] = bust`. -/
def setCache (cache : List (Str × Str)) (k v : Str) : List (Str × Str) :=
  if (cache.find? (fun e => decide (e.1 = k))).isSome then
    cache.map (fun e => if e.1 = k then (k, v) else e)
  else cache ++ [(k, v)]

/-- `_buster` inside `mk_buster` (omnibust.py:133): per-file sub-token with
the mtime-fingerprint fast path over the closure's `_cache`. -/
def busterStep (dd : DigestFn) (digest_func : Str) (digest_len stat_len : Int)
    (fs : FileSys) (cache : List (Str × Str)) (filepath : Str) :
    Str × List (Str × Str) :=
  let stat := if stat_len = 0 then [] else pyTake stat_len (filestat dd fs filepath)
  let old_bust :=
    match cache.find? (fun e => decide (e.1 = filepath)) with
    | some e => e.2
    | none => []
  if stat ≠ [] ∧ endswith stat old_bust = true then (old_bust, cache)
  else
    let digest :=
      if digest_len = 0 then []
      else pyTake digest_len (dd digest_func (fs.content filepath))
    let bust := digest ++ stat
    (bust, setCache cache filepath bust)

/-- `_bust_paths` inside `mk_buster` (omnibust.py:155), starting from an
empty cache: concatenate the per-file sub-tokens in the order of `paths`
and, for more than one path, digest the concatenation and truncate it to
`len(full_bust) // len(paths)`.  (For an empty `paths` CPython raises
`ZeroDivisionError`; callers always pass at least one path.) -/
def bust_paths (dd : DigestFn) (digest_func : Str) (digest_len stat_len : Int)
    (fs : FileSys) (paths : List Str) : Str :=
  let acc := paths.foldl
    (fun (acc : Str × List (Str × Str)) p =>
      let r := busterStep dd digest_func digest_len stat_len fs acc.2 p
      (acc.1 ++ r.1, r.2))
    ([], [])
  let full_bust := acc.1
  if paths.length = 1 then full_bust
  else if paths.length = 0 then []
  else pyTake (Int.ofNat (full_bust.length / paths.length)) (dd "sha1".data full_bust)

/-- `expand_path` (omnibust.py:275).  Python builds a `set`; the model keeps
the mathematical set as a duplicate-free list in insertion order.  A Python
`set` of strings has no guaranteed iteration order (string hashing is
seed-randomized per process), which is why order-dependent consumers are
quantified over permutations of this list. -/
def expand_path (path : Str) (multibust : List (Str × List Str)) : List Str :=
  multibust.foldl
    (fun acc e =>
      if containsSub e.1 path then
        e.2.foldl
          (fun acc2 r =>
            let np := replaceAll e.1 r path
            if np ∈ acc2 then acc2 else acc2 ++ [np])
          acc
      else acc)
    [path]

/-- A concrete digest oracle (identity on the data) used to evaluate the
buster at concrete inputs. -/
def dd0 : DigestFn := fun _ data => data

/-- A concrete filesystem: file `p` has content `p ++ "C"` and
modification-time string `p ++ "M"`. -/
def fs0 : FileSys :=
  { content := fun p => p ++ "C".data
    mtimeRepr := fun p => p ++ "M".data }

/-- Claim C1: the multibust expansion of `/static/i18n_@lang@.png` yields a
three-element set, and `_bust_paths` is sensitive to the enumeration order
of its path set: two permutations of the same resolved paths produce
different tokens.  Since `expand_path` returns a Python `set` of strings,
whose iteration order varies across process restarts under hash
randomization, the bust token of a multi-path reference is NOT stable
across restarts — the order the claim requires to be deterministic is not. -/
theorem c1_bust_order_sensitivity :
    expand_path "/static/i18n_@lang@.png".data
        [("@lang@".data, ["en".data, "de".data])] =
      ["/static/i18n_@lang@.png".data, "/static/i18n_en.png".data,
        "/static/i18n_de.png".data] ∧
    ∃ l₁ l₂ : List Str, l₁.Perm l₂ ∧
      bust_paths dd0 "sha1".data 3 3 fs0 l₁ ≠ bust_paths dd0 "sha1".data 3 3 fs0 l₂ := by
  refine ⟨by decide, ["aa".data, "bb".data], ["bb".data, "aa".data],
    List.Perm.swap "bb".data "aa".data [], by decide⟩

/-- Claim C2, counterexample: with stat length 3 and digest length 3, the
per-file sub-token is NOT `fingerprint-truncation ++ digest-truncation`;
at this concrete input the buster returns `aaCaaM` (digest first) while the
claimed order would give `aaMaaC`. -/
theorem c2_subtoken_order_counterexample :
    (busterStep dd0 "sha1".data 3 3 fs0 [] "aa".data).1 ≠
      pyTake 3 (filestat dd0 fs0 "aa".data) ++
        pyTake 3 (dd0 "sha1".data (fs0.content "aa".data)) := by
  decide

/-- Claim C2 (amended): for stat length `s > 0` and digest length `d > 0`,
the per-file sub-token returned by the buster (on a fresh cache) is the
truncation to `d` characters of the content digest followed by the
truncation to `s` characters of the mtime fingerprint — digest component
first, fingerprint last: the first `d` characters are the content digest
and the last `s` characters are the mtime fingerprint. -/
theorem c2_subtoken_digest_then_stat (dd : DigestFn) (digest_func : Str)
    (fs : FileSys) (p : Str) (d s : Int) (hd : 0 < d) (hs : 0 < s) :
    (busterStep dd digest_func d s fs [] p).1 =
      pyTake d (dd digest_func (fs.content p)) ++ pyTake s (filestat dd fs p) := by
  have hd0 : ¬d = 0 := by omega
  have hs0 : ¬s = 0 := by omega
  simp only [busterStep, List.find?_nil, if_neg hd0, if_neg hs0]
  rw [if_neg]
  rintro ⟨h1, h2⟩
  simp only [endswith, List.drop_nil] at h2
  split at h2
  · next heq => exact h1 heq.symm
  · exact Bool.false_ne_true h2

/-- Witness for `c2_subtoken_digest_then_stat` at the concrete digest
oracle `dd0`, filesystem `fs0`, path `aa` and lengths 3/3. -/
theorem c2_subtoken_digest_then_stat_witness :
    (0 : Int) < 3 ∧
    (busterStep dd0 "sha1".data 3 3 fs0 [] "aa".data).1 =
      pyTake 3 (dd0 "sha1".data (fs0.content "aa".data)) ++
        pyTake 3 (filestat dd0 fs0 "aa".data) :=
  ⟨by decide,
    c2_subtoken_digest_then_stat dd0 "sha1".data fs0 "aa".data 3 3
      (by decide) (by decide)⟩

/-- The double-quote character. -/
def dqChar : Char := '"'

/-- Captured groups of one match attempt: name to captured text, latest
capture first (Python's `match.group(name)`, `None` when absent). -/
abbrev Caps := List (String × Str)

/-- Record a capture for group `n` (overriding an earlier capture). -/
def setCap (caps : Caps) (n : String) (v : Str) : Caps :=
  (n, v) :: caps.filter (fun kv => kv.1 ≠ n)

/-- Look up a captured group (`match.group(n)`). -/
def getCap (caps : Caps) (n : String) : Option Str :=
  (caps.find? (fun kv => decide (kv.1 = n))).map (fun kv => kv.2)

/-- Abstract syntax of the fragment of Python `re` used by the three
reference patterns of omnibust.py.  Every repetition in those patterns
ranges over a single character class, which the constructors reflect:
`plusG`/`starG`/`repMaxG` are greedy `+`/`*`/`{0,n}`, `plusL` is lazy
`+?`. -/
inductive Regex where
  | lit (cs : Str)
  | cls (p : Char → Bool)
  | seq (a b : Regex)
  | alt (a b : Regex)
  | opt (a : Regex)
  | grp (name : String) (a : Regex)
  | plusG (p : Char → Bool)
  | plusL (p : Char → Bool)
  | starG (p : Char → Bool)
  | repMaxG (p : Char → Bool) (n : Nat)

/-- Length of the longest prefix of `s` whose characters satisfy `p`. -/
def maxRun (p : Char → Bool) (s : Str) : Nat :=
  (s.takeWhile p).length

/-- Backtracking matcher: all ways the pattern can match a prefix of `s`,
as `(captures, remaining suffix)` pairs in Python `re` preference order
(alternation left first, greedy longest first, lazy shortest first); the
head of the list is the match Python's engine reports. -/
def matchRe : Regex → Str → Caps → List (Caps × Str)
  | .lit cs, s, caps => if cs.isPrefixOf s then [(caps, s.drop cs.length)] else []
  | .cls p, s, caps =>
    match s with
    | [] => []
    | c :: rest => if p c then [(caps, rest)] else []
  | .seq a b, s, caps => (matchRe a s caps).bind (fun r => matchRe b r.2 r.1)
  | .alt a b, s, caps => matchRe a s caps ++ matchRe b s caps
  | .opt a, s, caps => matchRe a s caps ++ [(caps, s)]
  | .grp n a, s, caps =>
      (matchRe a s caps).map
        (fun r => (setCap r.1 n (s.take (s.length - r.2.length)), r.2))
  | .plusG p, s, caps =>
      let k := maxRun p s
      (List.range k).map (fun i => (caps, s.drop (k - i)))
  | .plusL p, s, caps =>
      let k := maxRun p s
      (List.range k).map (fun i => (caps, s.drop (i + 1)))
  | .starG p, s, caps =>
      let k := maxRun p s
      (List.range (k + 1)).map (fun i => (caps, s.drop (k - i)))
  | .repMaxG p n, s, caps =>
      let k := min (maxRun p s) n
      (List.range (k + 1)).map (fun i => (caps, s.drop (k - i)))

/-- The match Python reports at this exact position: matched text plus
captures, or `none`. -/
def matchFirst (r : Regex) (s : Str) : Option (Str × Caps) :=
  match matchRe r s [] with
  | [] => none
  | (caps, rest) :: _ => some (s.take (s.length - rest.length), caps)

/-- `re.finditer` scan: leftmost matches, non-overlapping, resuming after
each match (advancing one character after an empty match, as CPython does;
the three patterns can in fact never match empty).  The fuel is
`s.length + 1`, enough for one unit per scan position. -/
def findIterGo (r : Regex) : Nat → Str → List (Str × Caps)
  | 0, _ => []
  | fuel + 1, s =>
    match matchFirst r s with
    | some m =>
        match s with
        | [] => [m]
        | _ :: cs =>
            if m.1.length = 0 then m :: findIterGo r fuel cs
            else m :: findIterGo r fuel (s.drop m.1.length)
    | none =>
        match s with
        | [] => []
        | _ :: cs => findIterGo r fuel cs

/-- All matches of `r` in `s`, in scan order (`re.finditer`). -/
def findIter (r : Regex) (s : Str) : List (Str × Caps) :=
  findIterGo r (s.length + 1) s

/-- Python `\w`, restricted to ASCII.  (Python 3 `\w` also matches non-ASCII
word characters; every input in this development and in the repository's own
tests is ASCII, where the two agree.) -/
def isWordCh (c : Char) : Bool := c.isAlphanum || c = '_'

/-- Python `\s` (ASCII whitespace, same caveat as `isWordCh`). -/
def isSpaceCh (c : Char) : Bool :=
  c = ' ' || c = '\t' || c = '\n' || c = '\x0b' || c = '\x0c' || c = '\r'

/-- The class `["']`. -/
def isQuoteCh (c : Char) : Bool := c = dqChar || c = sqChar

/-- The class `[^"'\)\s\?]` (directory part of a plain reference). -/
def plainDirCls (c : Char) : Bool :=
  !(isQuoteCh c || c = ')' || isSpaceCh c || c = '?')

/-- The class `[^\/"'\)\s\?]` (filename part of a plain reference). -/
def plainFnCls (c : Char) : Bool :=
  !(c = '/' || isQuoteCh c || c = ')' || isSpaceCh c || c = '?')

/-- The class `[\?=&\w]` (query-parameter tail). -/
def tailCls (c : Char) : Bool := c = '?' || c = '=' || c = '&' || isWordCh c

/-- The class `["'\)]` (closing quote/paren run). -/
def closeCls (c : Char) : Bool := isQuoteCh c || c = ')'

/-- The class `[^"']`. -/
def notQuoteCls (c : Char) : Bool := !isQuoteCh c

/-- Python `.` without `DOTALL`: anything but a newline. -/
def dotCls (c : Char) : Bool := c ≠ '\n'

/-- The class `[a-zA-Z0-9]` (bust-token characters). -/
def alnumCls (c : Char) : Bool := c.isAlphanum

/-- `(url\(["']?|href=["']|src=["'])` — the leading group of
`PLAIN_REF_RE` (quote required after `href=`/`src=`, optional after
`url(`). -/
def plainLead : Regex :=
  .alt (.seq (.lit "url(".data) (.opt (.cls isQuoteCh)))
    (.alt (.seq (.lit "href=".data) (.cls isQuoteCh))
      (.seq (.lit "src=".data) (.cls isQuoteCh)))

/-- `(url\(["']?|href=["']?|src=["']?)?` — the optional leading group of
the marked-reference patterns. -/
def markedLead : Regex :=
  .opt (.alt (.seq (.lit "url(".data) (.opt (.cls isQuoteCh)))
    (.alt (.seq (.lit "href=".data) (.opt (.cls isQuoteCh)))
      (.seq (.lit "src=".data) (.opt (.cls isQuoteCh)))))

/-- `PLAIN_REF_RE` (omnibust.py:296). -/
def PLAIN_REF_RE : Regex :=
  .seq plainLead
    (.seq
      (.grp "path"
        (.seq (.opt (.grp "dir" (.seq (.plusG plainDirCls) (.lit "/".data))))
          (.plusG plainFnCls)))
      (.seq (.starG tailCls) (.starG closeCls)))

/-- `FN_REF_RE` (omnibust.py:305). -/
def FN_REF_RE : Regex :=
  .seq markedLead
    (.seq (.grp "prefix" (.plusL notQuoteCls))
      (.seq (.lit "_cb_".data)
        (.seq (.grp "bust" (.repMaxG alnumCls 16))
          (.seq (.grp "ext" (.seq (.lit ".".data) (.plusG isWordCh)))
            (.seq (.starG tailCls) (.starG closeCls))))))

/-- `QS_REF_RE` (omnibust.py:314). -/
def QS_REF_RE : Regex :=
  .seq markedLead
    (.seq (.grp "ref" (.plusL notQuoteCls))
      (.seq (.lit "?".data)
        (.seq (.opt (.seq (.plusL dotCls) (.lit "&".data)))
          (.seq (.lit "_cb_".data)
            (.seq (.opt (.seq (.lit "=".data) (.grp "bust" (.repMaxG alnumCls 16))))
              (.seq (.starG tailCls) (.starG closeCls)))))))

/-- One yielded tuple `(full_ref, ref_path, bust, ref_type)` of a line
parser. -/
abbrev RawM := Str × Str × Option Str × Nat

/-- `plainref_line_parser` (omnibust.py:381): plain matches whose full text
does not already contain the `_cb_` marker; the bustcode yielded is the
empty string. -/
def plainref_line_matches (line : Str) : List RawM :=
  ((findIter PLAIN_REF_RE line).filter
      (fun m => !containsSub "_cb_".data m.1)).map
    (fun m => (m.1, (getCap m.2 "path").getD [], some [], PLAIN_REF))

/-- `markedref_line_parser` (omnibust.py:392): filename-embedded matches
first, then query-string matches, guarded by the `_cb_` fast path.  The
`bust` group of `QS_REF_RE` is optional, so its capture can be `None`. -/
def markedref_line_matches (line : Str) : List RawM :=
  if !containsSub "_cb_".data line then []
  else
    ((findIter FN_REF_RE line).map
      (fun m =>
        (m.1, (getCap m.2 "prefix").getD [] ++ (getCap m.2 "ext").getD [],
          some ((getCap m.2 "bust").getD []), FN_REF))) ++
    ((findIter QS_REF_RE line).map
      (fun m => (m.1, (getCap m.2 "ref").getD [], getCap m.2 "bust", QS_REF)))

/-- Python `str.splitlines` for `\n`-separated text (the only separator
appearing in this development; CPython also splits on `\r` and some
Unicode separators). -/
def splitLines (content : Str) : List Str :=
  if content = [] then []
  else
    let parts := splitOnChar '\n' content
    if content.getLast? = some '\n' then parts.dropLast else parts

/-- `parse_refs` (omnibust.py:409): line-by-line scan, skipping any match
whose full text contains `data:image/`, producing 1-based line numbers. -/
def parse_refs (lp : Str → List RawM) (content : Str) : List Ref :=
  (splitLines content).enum.bind
    (fun pr =>
      ((lp pr.2).filter (fun m => !containsSub "data:image/".data m.1)).map
        (fun m => ⟨[], [], pr.1 + 1, m.1, m.2.1, m.2.2.1, m.2.2.2⟩))

/-- The `all_refs` list built inside `parse_content_refs`
(omnibust.py:418-424): plain references first (when requested), then marked
references (when the content contains `_cb_` at all). -/
def all_refs (content : Str) (parse_plain : Bool) : List Ref :=
  (if parse_plain then parse_refs plainref_line_matches content else []) ++
    (if containsSub "_cb_".data content then
      parse_refs markedref_line_matches content
    else [])

/-- The deduplication key `(ref.lineno, ref.full_ref)` (omnibust.py:428). -/
def refKey (r : Ref) : Nat × Str := (r.lineno, r.full_ref)

/-- The `seen` dict of `parse_content_refs`, modelled as an association
list in insertion order (CPython dicts preserve insertion order, and a
value update keeps the key's position). -/
abbrev Seen := List ((Nat × Str) × Ref)

/-- Python `seen.get(key)`-style lookup. -/
def lookupSeen (seen : Seen) (k : Nat × Str) : Option Ref :=
  (seen.find? (fun e => decide (e.1 = k))).map (fun e => e.2)

/-- Python `seen[key] = ref` when `key` is already present: value replaced
in place, position preserved. -/
def updSeen (seen : Seen) (k : Nat × Str) (v : Ref) : Seen :=
  seen.map (fun e => if e.1 = k then (k, v) else e)

/-- One iteration of the dedup loop (omnibust.py:427-430): insert a fresh
key, or overwrite when the new reference has a strictly higher type. -/
def stepSeen (seen : Seen) (r : Ref) : Seen :=
  match lookupSeen seen (refKey r) with
  | none => seen ++ [(refKey r, r)]
  | some old => if old.type < r.type then updSeen seen (refKey r) r else seen

/-- `seen.values()` after the dedup loop. -/
def dedup_refs (l : List Ref) : List Ref :=
  (l.foldl stepSeen []).map (fun e => e.2)

/-- Stable insertion of `r` before the first element with a line number
`≥ r.lineno`. -/
def insSorted (r : Ref) : List Ref → List Ref
  | [] => [r]
  | x :: xs => if r.lineno ≤ x.lineno then r :: x :: xs else x :: insSorted r xs

/-- Python `sorted(..., key=lambda r: r.lineno)`: a stable sort by line
number (any stable sort computes the same list, so insertion sort is an
exact model). -/
def sortByLineno : List Ref → List Ref
  | [] => []
  | r :: rs => insSorted r (sortByLineno rs)

/-- `parse_content_refs` (omnibust.py:418). -/
def parse_content_refs (content : Str) (parse_plain : Bool) : List Ref :=
  sortByLineno (dedup_refs (all_refs content parse_plain))

/-- Index of the first occurrence of `pat` in a string (`str.find`). -/
def firstOccIdx (pat : Str) : Str → Option Nat
  | [] => if pat.isPrefixOf ([] : Str) then some 0 else none
  | c :: cs =>
    if pat.isPrefixOf (c :: cs) then some 0
    else (firstOccIdx pat cs).map (fun i => i + 1)

/-- The content of claim C9: a single line `src="/a.js?_cb_"` whose
query-string marker has no `=` and no token value. -/
def c9content : Str :=
  "src=".data ++ [dqChar] ++ "/a.js?_cb_".data ++ [dqChar]

/-- The reference the parser emits for `c9content`: a `QS_REF` whose
bustcode is the absent value `none`. -/
def c9ref : Ref :=
  ⟨[], [], 1, c9content, "/a.js".data, none, QS_REF⟩

/-- Claim C9: for the line `src="/a.js?_cb_"` (a query-string marker with
no `=` and no token) the parser emits a QS-kind reference whose bustcode is
the absent value `none` — not the empty string — and rewriting that
reference with `replace_bustcode` raises `TypeError` (the concatenation
`"_cb_=" + None`) instead of returning a string. -/
theorem c9_qs_missing_token_typeerror :
    parse_content_refs c9content true = [c9ref] ∧
    c9ref.bustcode = none ∧
    c9ref.bustcode ≠ some [] ∧
    replace_bustcode c9ref "abc".data = .error .typeError := by
  decide

/-- The content of claim C5's counterexample: a single line carrying the
non-image data URI `src="data:text/plain;base64,AAAA"`. -/
def c5content : Str :=
  "src=".data ++ [dqChar] ++ "data:text/plain;base64,AAAA".data ++ [dqChar]

/-- The plain reference the parser emits for `c5content` — a data-URI
literal that is not excluded. -/
def c5ref : Ref :=
  ⟨[], [], 1, c5content, "data:text/plain;base64,AAAA".data, some [], PLAIN_REF⟩

/-- Claim C5, counterexample: the parser only filters matches containing
the literal `data:image/`.  The data-URI line
`src="data:text/plain;base64,AAAA"` IS emitted as a plain reference, so a
match whose text contains a (non-image) `data:` URI is not excluded. -/
theorem c5_nonimage_datauri_emitted :
    parse_content_refs c5content true = [c5ref] ∧
    containsSub "data:".data c5ref.full_ref = true ∧
    containsSub ";base64,".data c5ref.full_ref = true := by
  decide

/-- The content of claim C6's counterexample: one line holding a
query-string reference `url('/s/a.js?_cb_=1')` at position 0 followed by a
plain reference `url('/s/b.js')` at position 22. -/
def c6content : Str :=
  "url(".data ++ [sqChar] ++ "/s/a.js?_cb_=1".data ++ [sqChar] ++ ") url(".data ++
    [sqChar] ++ "/s/b.js".data ++ [sqChar] ++ ")".data

/-- The query-string reference matched at position 0 of `c6content`. -/
def c6refA : Ref :=
  ⟨[], [], 1,
    "url(".data ++ [sqChar] ++ "/s/a.js?_cb_=1".data ++ [sqChar] ++ ")".data,
    "/s/a.js".data, some "1".data, QS_REF⟩

/-- The plain reference matched at position 22 of `c6content`. -/
def c6refB : Ref :=
  ⟨[], [], 1,
    "url(".data ++ [sqChar] ++ "/s/b.js".data ++ [sqChar] ++ ")".data,
    "/s/b.js".data, some [], PLAIN_REF⟩

/-- Claim C6, counterexample: on `c6content` the parser returns the plain
reference whose match starts at position 22 BEFORE the query-string
reference whose match starts at position 0 of the same line, so the output
is not ordered by left-to-right match position within a line (plain-pass
matches come first, then marked-pass matches). -/
theorem c6_position_order_violated :
    parse_content_refs c6content true = [c6refB, c6refA] ∧
    firstOccIdx c6refA.full_ref c6content = some 0 ∧
    firstOccIdx c6refB.full_ref c6content = some 22 := by
  decide

/-- Invariant of the dedup loop of `parse_content_refs` after processing
the references in `processed`: keys are unique, every stored entry is keyed
by its own reference key, stores a processed reference of maximal type
among the processed references with that key, and every processed
reference's key is present. -/
structure SeenInv (processed : List Ref) (seen : Seen) : Prop where
  nodup : (seen.map (fun e => e.1)).Nodup
  keyEq : ∀ e ∈ seen, e.1 = refKey e.2
  memP : ∀ e ∈ seen, e.2 ∈ processed
  maxT : ∀ e ∈ seen, ∀ r' ∈ processed, refKey r' = e.1 → r'.type ≤ e.2.type
  covered : ∀ r' ∈ processed, ∃ e ∈ seen, e.1 = refKey r'

theorem lookupSeen_eq_none {seen : Seen} {k : Nat × Str}
    (h : lookupSeen seen k = none) : ∀ e ∈ seen, e.1 ≠ k := by
  intro e he
  unfold lookupSeen at h
  cases hf : seen.find? (fun e => decide (e.1 = k)) with
  | none =>
      have := List.find?_eq_none.mp hf e he
      simpa using this
  | some x => rw [hf] at h; simp at h

theorem lookupSeen_eq_some {seen : Seen} {k : Nat × Str} {v : Ref}
    (h : lookupSeen seen k = some v) : ∃ e ∈ seen, e.1 = k ∧ e.2 = v := by
  unfold lookupSeen at h
  cases hf : seen.find? (fun e => decide (e.1 = k)) with
  | none => rw [hf] at h; simp at h
  | some x =>
      rw [hf] at h
      simp only [Option.map_some', Option.some.injEq] at h
      refine ⟨x, List.mem_of_find?_eq_some hf, ?_, h⟩
      have := List.find?_some hf
      simpa using this

theorem key_unique {seen : Seen} (hn : (seen.map (fun e => e.1)).Nodup)
    {e e' : (Nat × Str) × Ref} (h1 : e ∈ seen) (h2 : e' ∈ seen)
    (hk : e.1 = e'.1) : e = e' := by
  induction seen with
  | nil => simp at h1
  | cons a t ih =>
      simp only [List.map_cons, List.nodup_cons] at hn
      rcases List.mem_cons.mp h1 with h1a | h1t
      · rcases List.mem_cons.mp h2 with h2a | h2t
        · rw [h1a, h2a]
        · exfalso
          apply hn.1
          have : e'.1 ∈ t.map (fun e => e.1) := List.mem_map_of_mem _ h2t
          rw [← hk, h1a] at this
          exact this
      · rcases List.mem_cons.mp h2 with h2a | h2t
        · exfalso
          apply hn.1
          have : e.1 ∈ t.map (fun e => e.1) := List.mem_map_of_mem _ h1t
          rw [hk, h2a] at this
          exact this
        · exact ih hn.2 h1t h2t

theorem mem_updSeen {seen : Seen} {k : Nat × Str} {v : Ref}
    {e' : (Nat × Str) × Ref} (h : e' ∈ updSeen seen k v) :
    e' = (k, v) ∨ (e' ∈ seen ∧ e'.1 ≠ k) := by
  unfold updSeen at h
  rw [List.mem_map] at h
  obtain ⟨e, he, hfe⟩ := h
  by_cases hek : e.1 = k
  · left; rw [← hfe, if_pos hek]
  · right
    rw [← hfe, if_neg hek]
    exact ⟨he, hek⟩

theorem updSeen_keys {seen : Seen} {k : Nat × Str} {v : Ref} :
    (updSeen seen k v).map (fun e => e.1) = seen.map (fun e => e.1) := by
  unfold updSeen
  rw [List.map_map]
  apply List.map_congr_left
  intro e _
  by_cases hek : e.1 = k
  · simp only [Function.comp_apply, if_pos hek]
    exact hek.symm
  · simp only [Function.comp_apply, if_neg hek]

theorem updSeen_key_surj {seen : Seen} {k : Nat × Str} {v : Ref}
    {e : (Nat × Str) × Ref} (he : e ∈ seen) :
    ∃ e' ∈ updSeen seen k v, e'.1 = e.1 := by
  refine ⟨if e.1 = k then (k, v) else e, ?_, ?_⟩
  · unfold updSeen
    exact List.mem_map_of_mem _ he
  · by_cases hek : e.1 = k
    · rw [if_pos hek]; exact hek.symm
    · rw [if_neg hek]

theorem lookupSeen_of_mem {seen : Seen} (hn : (seen.map (fun e => e.1)).Nodup)
    {k : Nat × Str} {v : Ref} (hm : (k, v) ∈ seen) :
    lookupSeen seen k = some v := by
  cases hf : seen.find? (fun e => decide (e.1 = k)) with
  | none =>
      have := List.find?_eq_none.mp hf _ hm
      simp at this
  | some x =>
      have hx1 : x.1 = k := by simpa using List.find?_some hf
      have hxm := List.mem_of_find?_eq_some hf
      have hxv : x = (k, v) := key_unique hn hxm hm (by simp [hx1])
      unfold lookupSeen
      rw [hf, hxv]
      rfl

theorem stepSeen_inv {ps : List Ref} {seen : Seen} {r : Ref}
    (h : SeenInv ps seen) : SeenInv (ps ++ [r]) (stepSeen seen r) := by
  unfold stepSeen
  cases hlk : lookupSeen seen (refKey r) with
  | none =>
      have hfresh : ∀ e ∈ seen, e.1 ≠ refKey r := lookupSeen_eq_none hlk
      have hfresh' : refKey r ∉ seen.map (fun e => e.1) := by
        intro hmem
        rw [List.mem_map] at hmem
        obtain ⟨e, he, hek⟩ := hmem
        exact hfresh e he hek
      refine ⟨?_, ?_, ?_, ?_, ?_⟩
      · rw [List.map_append]
        rw [List.nodup_append]
        refine ⟨h.nodup, List.nodup_singleton _, ?_⟩
        intro a ha hb
        simp only [List.map_cons, List.map_nil, List.mem_singleton] at hb
        rw [hb] at ha
        exact hfresh' ha
      · intro e he
        rcases List.mem_append.mp he with hes | hen
        · exact h.keyEq e hes
        · simp only [List.mem_singleton] at hen
          rw [hen]
      · intro e he
        rcases List.mem_append.mp he with hes | hen
        · exact List.mem_append_left _ (h.memP e hes)
        · simp only [List.mem_singleton] at hen
          rw [hen]
          exact List.mem_append_right _ (List.mem_singleton_self r)
      · intro e he r' hr' hkr'
        rcases List.mem_append.mp he with hes | hen
        · rcases List.mem_append.mp hr' with hp | hr
          · exact h.maxT e hes r' hp hkr'
          · simp only [List.mem_singleton] at hr
            exfalso
            rw [hr] at hkr'
            exact hfresh e hes hkr'.symm
        · simp only [List.mem_singleton] at hen
          rw [hen] at hkr' ⊢
          rcases List.mem_append.mp hr' with hp | hr
          · exfalso
            obtain ⟨e', he', hke'⟩ := h.covered r' hp
            exact hfresh e' he' (hke'.trans hkr')
          · simp only [List.mem_singleton] at hr
            rw [hr]
      · intro r' hr'
        rcases List.mem_append.mp hr' with hp | hr
        · obtain ⟨e, he, hke⟩ := h.covered r' hp
          exact ⟨e, List.mem_append_left _ he, hke⟩
        · simp only [List.mem_singleton] at hr
          rw [hr]
          exact ⟨(refKey r, r), List.mem_append_right _ (List.mem_singleton_self _), rfl⟩
  | some old =>
      obtain ⟨e0, he0, hke0, hve0⟩ := lookupSeen_eq_some hlk
      show SeenInv (ps ++ [r])
        (if old.type < r.type then updSeen seen (refKey r) r else seen)
      by_cases hty : old.type < r.type
      · rw [if_pos hty]
        refine ⟨?_, ?_, ?_, ?_, ?_⟩
        · rw [updSeen_keys]; exact h.nodup
        · intro e he
          rcases mem_updSeen he with hek | ⟨hes, _⟩
          · rw [hek]
          · exact h.keyEq e hes
        · intro e he
          rcases mem_updSeen he with hek | ⟨hes, _⟩
          · rw [hek]
            exact List.mem_append_right _ (List.mem_singleton_self r)
          · exact List.mem_append_left _ (h.memP e hes)
        · intro e he r' hr' hkr'
          rcases mem_updSeen he with hek | ⟨hes, hne⟩
          · rw [hek] at hkr' ⊢
            rcases List.mem_append.mp hr' with hp | hr
            · have hb := h.maxT e0 he0 r' hp (by rw [hke0]; exact hkr')
              rw [hve0] at hb
              exact le_trans hb (Nat.le_of_lt hty)
            · simp only [List.mem_singleton] at hr
              rw [hr]
          · rcases List.mem_append.mp hr' with hp | hr
            · exact h.maxT e hes r' hp hkr'
            · simp only [List.mem_singleton] at hr
              exfalso
              rw [hr] at hkr'
              exact hne hkr'.symm
        · intro r' hr'
          rcases List.mem_append.mp hr' with hp | hr
          · obtain ⟨e, he, hke⟩ := h.covered r' hp
            obtain ⟨e', he', hke'⟩ := updSeen_key_surj (k := refKey r) (v := r) he
            exact ⟨e', he', hke'.trans hke⟩
          · simp only [List.mem_singleton] at hr
            obtain ⟨e', he', hke'⟩ := updSeen_key_surj (k := refKey r) (v := r) he0
            rw [hr]
            exact ⟨e', he', hke'.trans hke0⟩
      · rw [if_neg hty]
        refine ⟨h.nodup, h.keyEq, ?_, ?_, ?_⟩
        · intro e he
          exact List.mem_append_left _ (h.memP e he)
        · intro e he r' hr' hkr'
          rcases List.mem_append.mp hr' with hp | hr
          · exact h.maxT e he r' hp hkr'
          · simp only [List.mem_singleton] at hr
            rw [hr] at hkr'
            have hee0 : e = e0 := key_unique h.nodup he he0 (by rw [hke0, ← hkr'])
            rw [hr, hee0, hve0]
            exact Nat.le_of_not_lt hty
        · intro r' hr'
          rcases List.mem_append.mp hr' with hp | hr
          · exact h.covered r' hp
          · simp only [List.mem_singleton] at hr
            rw [hr]
            exact ⟨e0, he0, hke0⟩

instance : Inhabited Ref := ⟨⟨[], [], 0, [], [], none, 0⟩⟩

theorem foldl_stepSeen_inv :
    ∀ (l : List Ref) (ps : List Ref) (seen : Seen), SeenInv ps seen →
      SeenInv (ps ++ l) (l.foldl stepSeen seen)
  | [], ps, seen, h => by simpa using h
  | r :: rs, ps, seen, h => by
      have h1 := stepSeen_inv (r := r) h
      have h2 := foldl_stepSeen_inv rs (ps ++ [r]) (stepSeen seen r) h1
      simpa [List.append_assoc] using h2

theorem dedup_inv (l : List Ref) : SeenInv l (l.foldl stepSeen []) := by
  have h0 : SeenInv [] [] :=
    ⟨by simp, by simp, by simp, by simp, by simp⟩
  have h := foldl_stepSeen_inv l [] [] h0
  simpa using h

theorem insSorted_perm (r : Ref) (l : List Ref) : (insSorted r l).Perm (r :: l) := by
  induction l with
  | nil => exact List.Perm.refl _
  | cons x xs ih =>
      unfold insSorted
      by_cases hle : r.lineno ≤ x.lineno
      · rw [if_pos hle]
      · rw [if_neg hle]
        exact (List.Perm.cons x ih).trans (List.Perm.swap r x xs)

theorem sortByLineno_perm (l : List Ref) : (sortByLineno l).Perm l := by
  induction l with
  | nil => exact List.Perm.refl _
  | cons r rs ih =>
      unfold sortByLineno
      exact (insSorted_perm r (sortByLineno rs)).trans (List.Perm.cons r ih)

theorem pairwise_insSorted {r : Ref} {l : List Ref}
    (h : List.Pairwise (fun a b : Ref => a.lineno ≤ b.lineno) l) :
    List.Pairwise (fun a b : Ref => a.lineno ≤ b.lineno) (insSorted r l) := by
  induction l with
  | nil => simp [insSorted]
  | cons x xs ih =>
      rw [List.pairwise_cons] at h
      unfold insSorted
      by_cases hle : r.lineno ≤ x.lineno
      · rw [if_pos hle]
        rw [List.pairwise_cons]
        refine ⟨?_, List.pairwise_cons.mpr h⟩
        intro b hb
        rcases List.mem_cons.mp hb with hbx | hbt
        · rw [hbx]; exact hle
        · exact le_trans hle (h.1 b hbt)
      · rw [if_neg hle]
        rw [List.pairwise_cons]
        refine ⟨?_, ih h.2⟩
        intro b hb
        have hb' := (insSorted_perm r xs).mem_iff.mp hb
        rcases List.mem_cons.mp hb' with hbr | hbt
        · rw [hbr]; omega
        · exact h.1 b hbt

theorem sorted_sortByLineno (l : List Ref) :
    List.Pairwise (fun a b : Ref => a.lineno ≤ b.lineno) (sortByLineno l) := by
  induction l with
  | nil => simp [sortByLineno]
  | cons r rs ih =>
      unfold sortByLineno
      exact pairwise_insSorted ih

theorem filter_insSorted (r : Ref) (l : List Ref) (k : Nat) :
    (insSorted r l).filter (fun x => decide (x.lineno = k)) =
      if r.lineno = k then
        r :: l.filter (fun x => decide (x.lineno = k))
      else l.filter (fun x => decide (x.lineno = k)) := by
  induction l with
  | nil =>
      unfold insSorted
      by_cases hr : r.lineno = k <;> simp [hr]
  | cons x xs ih =>
      unfold insSorted
      by_cases hle : r.lineno ≤ x.lineno
      · rw [if_pos hle]
        by_cases hr : r.lineno = k <;>
          by_cases hx : x.lineno = k <;>
            simp [List.filter_cons, hr, hx]
      · rw [if_neg hle]
        by_cases hr : r.lineno = k
        · have hx : ¬x.lineno = k := by omega
          simp [List.filter_cons, hx, hr, ih]
        · by_cases hx : x.lineno = k <;>
            simp [List.filter_cons, hx, hr, ih]

theorem filter_sortByLineno (l : List Ref) (k : Nat) :
    (sortByLineno l).filter (fun x => decide (x.lineno = k)) =
      l.filter (fun x => decide (x.lineno = k)) := by
  induction l with
  | nil => simp [sortByLineno]
  | cons r rs ih =>
      unfold sortByLineno
      rw [filter_insSorted]
      by_cases hr : r.lineno = k <;> simp [List.filter_cons, hr, ih]

theorem mem_parse_refs_no_dataimage {lp : Str → List RawM} {content : Str}
    {r : Ref} (h : r ∈ parse_refs lp content) :
    containsSub "data:image/".data r.full_ref = false := by
  unfold parse_refs at h
  rw [List.mem_bind] at h
  obtain ⟨pr, _, hm⟩ := h
  rw [List.mem_map] at hm
  obtain ⟨m, hmf, hr⟩ := hm
  rw [List.mem_filter] at hmf
  have := hmf.2
  rw [← hr]
  simpa using this

theorem mem_all_refs_no_dataimage {content : Str} {pp : Bool} {r : Ref}
    (h : r ∈ all_refs content pp) :
    containsSub "data:image/".data r.full_ref = false := by
  unfold all_refs at h
  rcases List.mem_append.mp h with h1 | h1
  · split at h1
    · exact mem_parse_refs_no_dataimage h1
    · simp at h1
  · split at h1
    · exact mem_parse_refs_no_dataimage h1
    · simp at h1

/-- Claim C5 (amended): the parser's data-URI exclusion is exactly the
substring test `"data:image/" in full_ref` — no emitted reference of any
kind has a full text containing `data:image/` (non-image data URIs are NOT
excluded, per the counterexample). -/
theorem c5_only_dataimage_excluded (content : Str) (pp : Bool) (r : Ref)
    (hr : r ∈ parse_content_refs content pp) :
    containsSub "data:image/".data r.full_ref = false := by
  unfold parse_content_refs at hr
  have hrd := (sortByLineno_perm _).mem_iff.mp hr
  unfold dedup_refs at hrd
  rw [List.mem_map] at hrd
  obtain ⟨e, he, hev⟩ := hrd
  have inv := dedup_inv (all_refs content pp)
  have hmem := inv.memP e he
  rw [hev] at hmem
  exact mem_all_refs_no_dataimage hmem

/-- A one-reference content `url('/s/w.js')` used to instantiate the
hypotheses of the general parser theorems. -/
def wContent : Str :=
  "url(".data ++ [sqChar] ++ "/s/w.js".data ++ [sqChar] ++ ")".data

/-- The single plain reference parsed from `wContent`. -/
def wRef : Ref :=
  ⟨[], [], 1, wContent, "/s/w.js".data, some [], PLAIN_REF⟩

/-- Witness for `c5_only_dataimage_excluded` at the concrete content
`wContent` and its parsed reference. -/
theorem c5_only_dataimage_excluded_witness :
    wRef ∈ parse_content_refs wContent true ∧
    containsSub "data:image/".data wRef.full_ref = false :=
  ⟨by decide, c5_only_dataimage_excluded wContent true wRef (by decide)⟩

/-- Claim C6 (amended): the output of `parse_content_refs` is sorted
ascending by line number, and within any single line number the references
keep the relative order in which the deduplication pass emitted them (all
plain-pattern matches of the content first, then the marked-pattern
matches) — NOT the left-to-right position of the matched text within the
line, per the counterexample. -/
theorem c6_sorted_by_lineno_stable (content : Str) (pp : Bool) :
    List.Pairwise (fun a b : Ref => a.lineno ≤ b.lineno)
        (parse_content_refs content pp) ∧
    ∀ k : Nat,
      (parse_content_refs content pp).filter (fun x => decide (x.lineno = k)) =
        (dedup_refs (all_refs content pp)).filter
          (fun x => decide (x.lineno = k)) := by
  unfold parse_content_refs
  exact ⟨sorted_sortByLineno _, fun k => filter_sortByLineno _ k⟩

/-- Claim C10: `parse_content_refs` emits at most one reference per
`(lineno, full_ref)` key (the output's keys are pairwise distinct), every
output reference is one of the parsed occurrences, and it carries the
maximal type among all occurrences with its key — `QS_REF` (3) over
`FN_REF` (2) over `PLAIN_REF` (1). -/
theorem c10_dedup_highest_kind (content : Str) (pp : Bool) (r r' : Ref)
    (hr : r ∈ parse_content_refs content pp)
    (hr' : r' ∈ all_refs content pp)
    (hk : refKey r' = refKey r) :
    ((parse_content_refs content pp).map refKey).Nodup ∧
    r ∈ all_refs content pp ∧ r'.type ≤ r.type := by
  have inv := dedup_inv (all_refs content pp)
  have hkeys : ((dedup_refs (all_refs content pp)).map refKey).Nodup := by
    unfold dedup_refs
    rw [List.map_map]
    have hcong :
        ((all_refs content pp).foldl stepSeen []).map
            (refKey ∘ (fun e => e.2)) =
          ((all_refs content pp).foldl stepSeen []).map (fun e => e.1) := by
      apply List.map_congr_left
      intro e he
      exact (inv.keyEq e he).symm
    rw [hcong]
    exact inv.nodup
  unfold parse_content_refs at hr ⊢
  refine ⟨?_, ?_⟩
  · have hp := (sortByLineno_perm (dedup_refs (all_refs content pp))).map refKey
    exact hp.nodup_iff.mpr hkeys
  · have hrd := (sortByLineno_perm _).mem_iff.mp hr
    unfold dedup_refs at hrd
    rw [List.mem_map] at hrd
    obtain ⟨e, he, hev⟩ := hrd
    refine ⟨?_, ?_⟩
    · rw [← hev]
      exact inv.memP e he
    · have hb := inv.maxT e he r' hr' (by rw [inv.keyEq e he, hev]; exact hk)
      rw [hev] at hb
      exact hb

/-- Witness for `c10_dedup_highest_kind` at the concrete content `wContent`
with both reference arguments its single parsed reference. -/
theorem c10_dedup_highest_kind_witness :
    wRef ∈ parse_content_refs wContent true ∧
    wRef ∈ all_refs wContent true ∧
    refKey wRef = refKey wRef ∧
    (((parse_content_refs wContent true).map refKey).Nodup ∧
      wRef ∈ all_refs wContent true ∧ wRef.type ≤ wRef.type) :=
  ⟨by decide, by decide, rfl,
    c10_dedup_highest_kind wContent true wRef wRef (by decide) (by decide) rfl⟩
